import Mathlib

/-!
# Verification of the adaptive Bézier flattener and transformer model

Shallow embedding of the two algorithmic components of the repository:

* the adaptive quadratic-Bézier flattener of `src/components/Slider.tsx`
  (`getDistanceToLine`, `myVertex`, `_recursiveQuadraticVertex`,
  `myQuadraticVertex`), modelled over exact rational arithmetic.  The
  source compares the Euclidean distance (a square root) against the
  tolerance; here the recursion branches on the equivalent decidable
  comparison of the squared distance against the squared tolerance
  (`Real.sqrt d < c ↔ d < c ^ 2` for `0 ≤ d`, `0 < c`, proved below as
  `getDistanceToLine_lt_iff_sq`), so the emitted point sequence is
  exactly that of the source under exact arithmetic.  The real-valued
  `getDistanceToLine` mirroring the source (with `Real.sqrt`, as
  `p5.dist` computes) is also defined and related to the squared form.

* the ideal-transformer computation `calculateTransformerResults` of the
  transformer results module, modelled over ℚ (JavaScript division by
  zero produces non-finite junk; the ℚ embedding's `x / 0 = 0` likewise
  yields a junk value on those inputs).
-/

namespace VisualScience

/-- `flatnessTolerance` from `Slider.tsx`: `const flatnessTolerance: number = 0.5`. -/
def flatnessTolerance : ℚ := 1 / 2

/-- `maxRecursionDepth` from `Slider.tsx`: `const maxRecursionDepth: number = 8`. -/
def maxRecursionDepth : Nat := 8

/-- Squared Euclidean distance between `(px, py)` and `(qx, qy)`; the square of
`p5.dist`. -/
def dist2Sq (px py qx qy : ℚ) : ℚ :=
  (px - qx) ^ 2 + (py - qy) ^ 2

/-- Squared form of `getDistanceToLine` from `Slider.tsx`: identical branch
structure (the branch conditions involve no square root), each branch returning
the square of what the source returns. -/
def getDistanceToLineSq (px py x1 y1 x2 y2 : ℚ) : ℚ :=
  let dx := x2 - x1
  let dy := y2 - y1
  let lenSq := dx * dx + dy * dy
  if lenSq = 0 then
    dist2Sq px py x1 y1
  else
    let t := ((px - x1) * dx + (py - y1) * dy) / lenSq
    if t < 0 then dist2Sq px py x1 y1
    else if 1 < t then dist2Sq px py x2 y2
    else
      let closestX := x1 + t * dx
      let closestY := y1 + t * dy
      dist2Sq px py closestX closestY

/-- Midpoint of two coordinates: the `(a + b) / 2` computation used for the
local constants `midX01`, `midY01`, `midX12`, `midY12`, `midX012`, `midY012`
of `_recursiveQuadraticVertex`. -/
def mid (a b : ℚ) : ℚ := (a + b) / 2

/-- `_recursiveQuadraticVertex` from `Slider.tsx`, returning the list of points
emitted by `pInstance.vertex` calls.  The stop condition
`depth >= maxRecursionDepth || getDistanceToLine(...) < flatnessTolerance` is
embedded via the equivalent squared comparison; the source's local constants
`midX01 = (x0+x1)/2`, …, `midX012 = (midX01+midX12)/2`, … are written with
`mid`, so `mid (mid x0 x1) (mid x1 x2)` is `midX012` and so on. -/
def _recursiveQuadraticVertex (x0 y0 x1 y1 x2 y2 : ℚ) (depth : Nat) :
    List (ℚ × ℚ) :=
  if maxRecursionDepth ≤ depth ∨
      getDistanceToLineSq x1 y1 x0 y0 x2 y2 < flatnessTolerance ^ 2 then
    [(x2, y2)]
  else
    _recursiveQuadraticVertex x0 y0 (mid x0 x1) (mid y0 y1)
        (mid (mid x0 x1) (mid x1 x2)) (mid (mid y0 y1) (mid y1 y2)) (depth + 1) ++
      _recursiveQuadraticVertex (mid (mid x0 x1) (mid x1 x2))
        (mid (mid y0 y1) (mid y1 y2)) (mid x1 x2) (mid y1 y2) x2 y2 (depth + 1)
termination_by maxRecursionDepth - depth
decreasing_by
  all_goals
    rcases not_or.mp (by assumption) with ⟨h1, _⟩
    omega

/-- The module-level mutable cursor `lastX`, `lastY` of `Slider.tsx`, made
explicit state.  A value of this type models the initialized-cursor state. -/
structure FlattenerState where
  lastX : ℚ
  lastY : ℚ
  deriving DecidableEq

/-- `myVertex` from `Slider.tsx`: emits `(x, y)` and sets the cursor there. -/
def myVertex (x y : ℚ) : FlattenerState × List (ℚ × ℚ) :=
  (⟨x, y⟩, [(x, y)])

/-- `myQuadraticVertex` from `Slider.tsx`: draws the curve from the cursor
through control `(cx, cy)` to `(x2, y2)`, then sets the cursor to `(x2, y2)`. -/
def myQuadraticVertex (s : FlattenerState) (cx cy x2 y2 : ℚ) :
    FlattenerState × List (ℚ × ℚ) :=
  (⟨x2, y2⟩, _recursiveQuadraticVertex s.lastX s.lastY cx cy x2 y2 0)

/-! ## Transformer model (`calculateTransformerResults`) -/

/-- The `TransformerResults` interface of the transformer results module. -/
structure TransformerResults where
  transformerType : String
  primaryCurrent : ℚ
  primaryPower : ℚ
  secondaryVoltage : ℚ
  secondaryCurrent : ℚ
  secondaryPower : ℚ
  deriving DecidableEq

/-- `calculateTransformerResults`: ideal-transformer computation, translated
line by line.  The sequential reassignment of `transformerType`
(`"Isolation"` default, then `Ns > Np` and `Ns < Np` overrides, which are
mutually exclusive) is rendered as a nested conditional. -/
def calculateTransformerResults (primaryVoltage primaryTurns secondaryTurns
    loadResistance : ℚ) : TransformerResults :=
  let Np := primaryTurns
  let Ns := secondaryTurns
  let Vp := primaryVoltage
  let secondaryVoltage := Vp * (Ns / Np)
  let secondaryCurrent := secondaryVoltage / loadResistance
  let secondaryPower := secondaryVoltage * secondaryCurrent
  let primaryPower := secondaryPower
  let primaryCurrent := if Vp > 0 then primaryPower / Vp else 0
  let transformerType :=
    if Ns > Np then "Step-Up" else if Ns < Np then "Step-Down" else "Isolation"
  { transformerType := transformerType
    primaryCurrent := primaryCurrent
    primaryPower := primaryPower
    secondaryVoltage := secondaryVoltage
    secondaryCurrent := secondaryCurrent
    secondaryPower := secondaryPower }

/-! ## Basic structural lemmas about the recursion -/

/-- The last point emitted by any `_recursiveQuadraticVertex` call is its
endpoint `(x2, y2)`. -/
theorem rec_getLast (x0 y0 x1 y1 x2 y2 : ℚ) (depth : Nat) :
    (_recursiveQuadraticVertex x0 y0 x1 y1 x2 y2 depth).getLast? = some (x2, y2) := by
  induction x0, y0, x1, y1, x2, y2, depth using _recursiveQuadraticVertex.induct with
  | case1 x0 y0 x1 y1 x2 y2 depth h =>
    rw [_recursiveQuadraticVertex, if_pos h]
    rfl
  | case2 x0 y0 x1 y1 x2 y2 depth h ih1 ih2 =>
    rw [_recursiveQuadraticVertex, if_neg h, List.getLast?_append, ih2]
    rfl

/-- Each call emits at most `2 ^ (maxRecursionDepth - depth)` points. -/
theorem rec_length_le (x0 y0 x1 y1 x2 y2 : ℚ) (depth : Nat) :
    (_recursiveQuadraticVertex x0 y0 x1 y1 x2 y2 depth).length ≤
      2 ^ (maxRecursionDepth - depth) := by
  induction x0, y0, x1, y1, x2, y2, depth using _recursiveQuadraticVertex.induct with
  | case1 x0 y0 x1 y1 x2 y2 depth h =>
    rw [_recursiveQuadraticVertex, if_pos h]
    simpa using Nat.one_le_two_pow
  | case2 x0 y0 x1 y1 x2 y2 depth h ih1 ih2 =>
    rw [_recursiveQuadraticVertex, if_neg h, List.length_append]
    have hd : depth < maxRecursionDepth := by
      rcases not_or.mp h with ⟨h1, _⟩
      omega
    have hstep : maxRecursionDepth - depth = (maxRecursionDepth - (depth + 1)) + 1 := by
      omega
    rw [hstep, pow_succ]
    omega

/-- Each call emits at least one point. -/
theorem rec_one_le_length (x0 y0 x1 y1 x2 y2 : ℚ) (depth : Nat) :
    1 ≤ (_recursiveQuadraticVertex x0 y0 x1 y1 x2 y2 depth).length := by
  induction x0, y0, x1, y1, x2, y2, depth using _recursiveQuadraticVertex.induct with
  | case1 x0 y0 x1 y1 x2 y2 depth h =>
    rw [_recursiveQuadraticVertex, if_pos h]
    simp
  | case2 x0 y0 x1 y1 x2 y2 depth h ih1 ih2 =>
    rw [_recursiveQuadraticVertex, if_neg h, List.length_append]
    omega

/-- C1: for every `myQuadraticVertex` (`curveTo`) call made with an initialized
cursor, the last emitted point is exactly the requested endpoint `(ex, ey)`,
and the cursor after the call equals `(ex, ey)`, regardless of how many
intermediate points were emitted. -/
theorem curveTo_endpoint_exact (s : FlattenerState) (cx cy ex ey : ℚ) :
    ((myQuadraticVertex s cx cy ex ey).2).getLast? = some (ex, ey) ∧
      (myQuadraticVertex s cx cy ex ey).1 = ⟨ex, ey⟩ :=
  ⟨rec_getLast s.lastX s.lastY cx cy ex ey 0, rfl⟩

/-- C3: every `myQuadraticVertex` (`curveTo`) call terminates (the recursion is
well-founded, `maxRecursionDepth - depth` strictly decreasing, which is what
lets `_recursiveQuadraticVertex` be accepted as a total function), and the
number of emitted points is between `1` and `2 ^ maxRecursionDepth = 256`. -/
theorem curveTo_point_count (s : FlattenerState) (cx cy ex ey : ℚ) :
    1 ≤ ((myQuadraticVertex s cx cy ex ey).2).length ∧
      ((myQuadraticVertex s cx cy ex ey).2).length ≤ 2 ^ maxRecursionDepth ∧
      2 ^ maxRecursionDepth = 256 := by
  refine ⟨rec_one_le_length s.lastX s.lastY cx cy ex ey 0, ?_, by decide⟩
  simpa using rec_length_le s.lastX s.lastY cx cy ex ey 0

/-- C4: a sub-segment at depth `d` stops and emits `P2` exactly when
`maxRecursionDepth ≤ d` or the control-point distance test passes; otherwise
the call returns the concatenation of the two recursive calls on
`(P0, M01, M012)` and `(M012, M12, P2)` at depth `d + 1`, with the midpoint
`M012` emitted as the final point of the first recursive call (it is not
emitted again at the junction: the output is the plain concatenation). -/
theorem rec_step_characterization (x0 y0 x1 y1 x2 y2 : ℚ) (d : Nat) :
    ((maxRecursionDepth ≤ d ∨
        getDistanceToLineSq x1 y1 x0 y0 x2 y2 < flatnessTolerance ^ 2) →
      _recursiveQuadraticVertex x0 y0 x1 y1 x2 y2 d = [(x2, y2)]) ∧
    (¬(maxRecursionDepth ≤ d ∨
        getDistanceToLineSq x1 y1 x0 y0 x2 y2 < flatnessTolerance ^ 2) →
      _recursiveQuadraticVertex x0 y0 x1 y1 x2 y2 d =
        _recursiveQuadraticVertex x0 y0 (mid x0 x1) (mid y0 y1)
            (mid (mid x0 x1) (mid x1 x2)) (mid (mid y0 y1) (mid y1 y2)) (d + 1) ++
          _recursiveQuadraticVertex (mid (mid x0 x1) (mid x1 x2))
            (mid (mid y0 y1) (mid y1 y2)) (mid x1 x2) (mid y1 y2) x2 y2 (d + 1) ∧
      (_recursiveQuadraticVertex x0 y0 (mid x0 x1) (mid y0 y1)
          (mid (mid x0 x1) (mid x1 x2)) (mid (mid y0 y1) (mid y1 y2)) (d + 1)).getLast? =
        some (mid (mid x0 x1) (mid x1 x2), mid (mid y0 y1) (mid y1 y2))) := by
  constructor
  · intro h
    rw [_recursiveQuadraticVertex, if_pos h]
  · intro h
    rw [_recursiveQuadraticVertex, if_neg h]
    exact ⟨rfl, rec_getLast _ _ _ _ _ _ _⟩

/-- Witness for C4 at concrete inputs: the curve `(0,0) → (0,10) → (10,10)`
subdivides at depth `0`, and any segment at depth `8` stops. -/
theorem rec_step_characterization_witness :
    _recursiveQuadraticVertex 0 0 0 10 10 10 0 =
      _recursiveQuadraticVertex 0 0 (mid 0 0) (mid 0 10)
          (mid (mid 0 0) (mid 0 10)) (mid (mid 0 10) (mid 10 10)) 1 ++
        _recursiveQuadraticVertex (mid (mid 0 0) (mid 0 10))
          (mid (mid 0 10) (mid 10 10)) (mid 0 10) (mid 10 10) 10 10 1 ∧
    _recursiveQuadraticVertex 0 0 0 10 10 10 8 = [(10, 10)] := by
  have hsub : ¬(maxRecursionDepth ≤ 0 ∨
      getDistanceToLineSq 0 10 0 0 10 10 < flatnessTolerance ^ 2) := by
    norm_num [maxRecursionDepth, getDistanceToLineSq, dist2Sq, flatnessTolerance]
  have hstop : maxRecursionDepth ≤ 8 ∨
      getDistanceToLineSq 0 10 0 0 10 10 < flatnessTolerance ^ 2 := by
    left
    norm_num [maxRecursionDepth]
  exact ⟨((rec_step_characterization 0 0 0 10 10 10 0).2 hsub).1,
    (rec_step_characterization 0 0 0 10 10 10 8).1 hstop⟩

/-- C6: a `myQuadraticVertex` (`curveTo`) call whose control point and endpoint
both equal the cursor position emits exactly one point, the endpoint itself,
and leaves the cursor there: the recursion stops immediately through the
zero-length-segment fallback of the distance check. -/
theorem curveTo_degenerate_stable (px py : ℚ) :
    myQuadraticVertex ⟨px, py⟩ px py px py = (⟨px, py⟩, [(px, py)]) := by
  have hstop : maxRecursionDepth ≤ 0 ∨
      getDistanceToLineSq px py px py px py < flatnessTolerance ^ 2 := by
    right
    norm_num [getDistanceToLineSq, dist2Sq, flatnessTolerance]
  unfold myQuadraticVertex
  rw [_recursiveQuadraticVertex]
  simp only [if_pos hstop]

/-! ## Transformer theorems -/

/-- Counterexample to C7 as stated: at `Vp = 40, Np = 0, Ns = 0, R = 10` the
type is classified `"Isolation"` (`Ns = Np`) but the secondary voltage is not
`Vp`; the division `Ns / Np` is degenerate, so `Vs = Vp` fails. -/
theorem transformer_isolation_counterexample :
    (calculateTransformerResults 40 0 0 10).transformerType = "Isolation" ∧
      (calculateTransformerResults 40 0 0 10).secondaryVoltage ≠ 40 := by
  constructor
  · norm_num [calculateTransformerResults]
  · norm_num [calculateTransformerResults]

/-- C7 (amended): `calculateTransformerResults` returns `Vs = Vp * (Ns / Np)`,
`Is = Vs / R`, `Ps = Vs * Is`, `Pp = Ps`, classifies `"Step-Up"` when
`Ns > Np`, `"Step-Down"` when `Ns < Np`, `"Isolation"` when `Ns = Np` (and in
that case `Vs = Vp` provided `Np ≠ 0`), and at `Vp = 40, Np = 1, Ns = 2,
R = 10` it returns exactly `Vs = 80, Is = 8, Ps = 640, Pp = 640, Ip = 16`,
type `"Step-Up"`. -/
theorem transformer_results_spec (Vp Np Ns R : ℚ) :
    (calculateTransformerResults Vp Np Ns R).secondaryVoltage = Vp * (Ns / Np) ∧
    (calculateTransformerResults Vp Np Ns R).secondaryCurrent =
      (calculateTransformerResults Vp Np Ns R).secondaryVoltage / R ∧
    (calculateTransformerResults Vp Np Ns R).secondaryPower =
      (calculateTransformerResults Vp Np Ns R).secondaryVoltage *
        (calculateTransformerResults Vp Np Ns R).secondaryCurrent ∧
    (calculateTransformerResults Vp Np Ns R).primaryPower =
      (calculateTransformerResults Vp Np Ns R).secondaryPower ∧
    (Np < Ns → (calculateTransformerResults Vp Np Ns R).transformerType = "Step-Up") ∧
    (Ns < Np → (calculateTransformerResults Vp Np Ns R).transformerType = "Step-Down") ∧
    (Ns = Np → (calculateTransformerResults Vp Np Ns R).transformerType = "Isolation") ∧
    (Ns = Np → Np ≠ 0 →
      (calculateTransformerResults Vp Np Ns R).secondaryVoltage = Vp) ∧
    calculateTransformerResults 40 1 2 10 =
      { transformerType := "Step-Up", primaryCurrent := 16, primaryPower := 640,
        secondaryVoltage := 80, secondaryCurrent := 8, secondaryPower := 640 } := by
  refine ⟨rfl, rfl, rfl, rfl, ?_, ?_, ?_, ?_, ?_⟩
  · intro h
    simp only [calculateTransformerResults]
    rw [if_pos h]
  · intro h
    simp only [calculateTransformerResults]
    rw [if_neg (not_lt.mpr h.le), if_pos h]
  · intro h
    simp only [calculateTransformerResults, h]
    rw [if_neg (lt_irrefl Np), if_neg (lt_irrefl Np)]
  · intro h hNp
    simp only [calculateTransformerResults, h]
    rw [div_self hNp, mul_one]
  · norm_num [calculateTransformerResults]

/-- Witness for C7 (amended) at `Vp = 10, Np = 2, Ns = 2, R = 5`: equal turn
counts give type `"Isolation"` and `Vs = Vp`. -/
theorem transformer_results_spec_witness :
    (calculateTransformerResults 10 2 2 5).transformerType = "Isolation" ∧
      (calculateTransformerResults 10 2 2 5).secondaryVoltage = 10 :=
  ⟨(transformer_results_spec 10 2 2 5).2.2.2.2.2.2.1 rfl,
    (transformer_results_spec 10 2 2 5).2.2.2.2.2.2.2.1 rfl (by norm_num)⟩

/-- C8: the division computing the primary current is guarded: when `Vp > 0`
the primary current is `Pp / Vp`, and when `Vp ≤ 0` it is `0`, so the
division by `Vp` only happens on the `Vp > 0` branch. -/
theorem transformer_primary_current_guard (Vp Np Ns R : ℚ) :
    (0 < Vp → (calculateTransformerResults Vp Np Ns R).primaryCurrent =
      (calculateTransformerResults Vp Np Ns R).primaryPower / Vp) ∧
    (Vp ≤ 0 → (calculateTransformerResults Vp Np Ns R).primaryCurrent = 0) := by
  constructor
  · intro h
    simp only [calculateTransformerResults]
    rw [if_pos h]
  · intro h
    simp only [calculateTransformerResults]
    rw [if_neg (not_lt.mpr h)]

/-- Witness for C8 at `Vp = 40` (positive) and `Vp = 0` (non-positive). -/
theorem transformer_primary_current_guard_witness :
    (calculateTransformerResults 40 1 2 10).primaryCurrent =
        (calculateTransformerResults 40 1 2 10).primaryPower / 40 ∧
      (calculateTransformerResults 0 1 2 10).primaryCurrent = 0 :=
  ⟨(transformer_primary_current_guard 40 1 2 10).1 (by norm_num),
    (transformer_primary_current_guard 0 1 2 10).2 (by norm_num)⟩

/-- C10: the divisions by `primaryTurns` and by `loadResistance` are
unguarded: under the preconditions `Np ≠ 0` and `R ≠ 0` the computed secondary
voltage and current satisfy the transformer equations `Vs * Np = Vp * Ns` and
`Is * R = Vs`, and without those preconditions both equations fail (the
embedding of JavaScript division gives a junk value on a zero divisor), so
well-definedness of the result requires `Np ≠ 0` and `R ≠ 0`. -/
theorem transformer_unguarded_divisions (Vp Np Ns R : ℚ) :
    (Np ≠ 0 →
      (calculateTransformerResults Vp Np Ns R).secondaryVoltage * Np = Vp * Ns) ∧
    (R ≠ 0 →
      (calculateTransformerResults Vp Np Ns R).secondaryCurrent * R =
        (calculateTransformerResults Vp Np Ns R).secondaryVoltage) ∧
    ¬(∀ Vq Nq Nsq Rq : ℚ,
      (calculateTransformerResults Vq Nq Nsq Rq).secondaryVoltage * Nq = Vq * Nsq) ∧
    ¬(∀ Vq Nq Nsq Rq : ℚ,
      (calculateTransformerResults Vq Nq Nsq Rq).secondaryCurrent * Rq =
        (calculateTransformerResults Vq Nq Nsq Rq).secondaryVoltage) := by
  refine ⟨?_, ?_, ?_, ?_⟩
  · intro h
    simp only [calculateTransformerResults]
    rw [mul_assoc, div_mul_cancel₀ _ h]
  · intro h
    simp only [calculateTransformerResults]
    rw [div_mul_cancel₀ _ h]
  · intro hall
    have := hall 40 0 2 10
    norm_num [calculateTransformerResults] at this
  · intro hall
    have := hall 40 1 2 0
    norm_num [calculateTransformerResults] at this

/-- Witness for C10 at `Vp = 40, Np = 1, Ns = 2, R = 10` (both divisors
nonzero). -/
theorem transformer_unguarded_divisions_witness :
    (calculateTransformerResults 40 1 2 10).secondaryVoltage * 1 = 40 * 2 ∧
      (calculateTransformerResults 40 1 2 10).secondaryCurrent * 10 =
        (calculateTransformerResults 40 1 2 10).secondaryVoltage :=
  ⟨(transformer_unguarded_divisions 40 1 2 10).1 (by norm_num),
    (transformer_unguarded_divisions 40 1 2 10).2.1 (by norm_num)⟩

/-! ## Bézier parametrization of the emitted points -/

/-- One coordinate of the true quadratic Bézier curve
`B(t) = (1-t)² P0 + 2t(1-t) P1 + t² P2`, over ℚ (exact arithmetic). -/
def bezierX (p0 p1 p2 t : ℚ) : ℚ :=
  (1 - t) ^ 2 * p0 + 2 * t * (1 - t) * p1 + t ^ 2 * p2

/-- The polar form (blossom) of the quadratic Bézier: `blossom p0 p1 p2 u v`
is symmetric and affine in `u`, `v`, with `blossom p0 p1 p2 t t = bezierX p0
p1 p2 t`; `blossom p0 p1 p2 lo hi` is the control point of the sub-curve of
`B` on `[lo, hi]`. -/
def blossom (p0 p1 p2 u v : ℚ) : ℚ :=
  (1 - u) * (1 - v) * p0 + ((1 - u) * v + u * (1 - v)) * p1 + u * v * p2

/-- A rational is dyadic when it is an integer divided by a power of two. -/
def IsDyadic (q : ℚ) : Prop := ∃ (k : ℤ) (n : ℕ), q = (k : ℚ) / 2 ^ n

/-- Midpoints of dyadic rationals are dyadic. -/
theorem isDyadic_mid (a b : ℚ) (ha : IsDyadic a) (hb : IsDyadic b) :
    IsDyadic (mid a b) := by
  obtain ⟨k, n, rfl⟩ := ha
  obtain ⟨j, m, rfl⟩ := hb
  refine ⟨k * 2 ^ m + j * 2 ^ n, n + m + 1, ?_⟩
  have h2n : ((2:ℚ)) ^ n ≠ 0 := by positivity
  have h2m : ((2:ℚ)) ^ m ≠ 0 := by positivity
  have h2nm : ((2:ℚ)) ^ (n + m + 1) ≠ 0 := by positivity
  unfold mid
  push_cast
  rw [div_add_div _ _ h2n h2m, div_div, div_eq_div_iff (by positivity) h2nm]
  ring

/-- Invariant of the recursion: if the argument triangle is the de Casteljau
sub-triangle of the curve `B = (bezierX P0x P1x P2x, bezierX P0y P1y P2y)` on
the dyadic interval `[lo, hi]`, every emitted point is `B t` for a dyadic
parameter `t ∈ (lo, hi]`, in strictly increasing parameter order, ending at
`t = hi`. -/
theorem rec_param_invariant (P0x P0y P1x P1y P2x P2y : ℚ) :
    ∀ (x0 y0 x1 y1 x2 y2 : ℚ) (d : Nat), ∀ lo hi : ℚ,
      lo < hi → IsDyadic lo → IsDyadic hi →
      x0 = bezierX P0x P1x P2x lo → y0 = bezierX P0y P1y P2y lo →
      x1 = blossom P0x P1x P2x lo hi → y1 = blossom P0y P1y P2y lo hi →
      x2 = bezierX P0x P1x P2x hi → y2 = bezierX P0y P1y P2y hi →
      ∃ ts : List ℚ,
        ts.Chain' (· < ·) ∧
        (∀ t ∈ ts, lo < t ∧ t ≤ hi ∧ IsDyadic t) ∧
        ts.getLast? = some hi ∧
        _recursiveQuadraticVertex x0 y0 x1 y1 x2 y2 d =
          ts.map (fun t => (bezierX P0x P1x P2x t, bezierX P0y P1y P2y t)) := by
  intro x0 y0 x1 y1 x2 y2 d
  induction x0, y0, x1, y1, x2, y2, d using _recursiveQuadraticVertex.induct with
  | case1 x0 y0 x1 y1 x2 y2 d h =>
    intro lo hi hlt hdlo hdhi hx0 hy0 hx1 hy1 hx2 hy2
    refine ⟨[hi], List.chain'_singleton hi, ?_, rfl, ?_⟩
    · intro t ht
      simp only [List.mem_singleton] at ht
      subst ht
      exact ⟨hlt, le_refl _, hdhi⟩
    · rw [_recursiveQuadraticVertex, if_pos h, hx2, hy2]
      rfl
  | case2 x0 y0 x1 y1 x2 y2 d h ih1 ih2 =>
    intro lo hi hlt hdlo hdhi hx0 hy0 hx1 hy1 hx2 hy2
    have hm1 : lo < mid lo hi := by unfold mid; linarith
    have hm2 : mid lo hi < hi := by unfold mid; linarith
    have hdm : IsDyadic (mid lo hi) := isDyadic_mid lo hi hdlo hdhi
    have e1 : mid x0 x1 = blossom P0x P1x P2x lo (mid lo hi) := by
      rw [hx0, hx1]
      unfold mid bezierX blossom
      ring
    have e2 : mid y0 y1 = blossom P0y P1y P2y lo (mid lo hi) := by
      rw [hy0, hy1]
      unfold mid bezierX blossom
      ring
    have e3 : mid (mid x0 x1) (mid x1 x2) = bezierX P0x P1x P2x (mid lo hi) := by
      rw [hx0, hx1, hx2]
      unfold mid bezierX blossom
      ring
    have e4 : mid (mid y0 y1) (mid y1 y2) = bezierX P0y P1y P2y (mid lo hi) := by
      rw [hy0, hy1, hy2]
      unfold mid bezierX blossom
      ring
    have e5 : mid x1 x2 = blossom P0x P1x P2x (mid lo hi) hi := by
      rw [hx1, hx2]
      unfold mid bezierX blossom
      ring
    have e6 : mid y1 y2 = blossom P0y P1y P2y (mid lo hi) hi := by
      rw [hy1, hy2]
      unfold mid bezierX blossom
      ring
    obtain ⟨ts1, hc1, hmem1, hlast1, heq1⟩ :=
      ih1 lo (mid lo hi) hm1 hdlo hdm hx0 hy0 e1 e2 e3 e4
    obtain ⟨ts2, hc2, hmem2, hlast2, heq2⟩ :=
      ih2 (mid lo hi) hi hm2 hdm hdhi e3 e4 e5 e6 hx2 hy2
    refine ⟨ts1 ++ ts2, ?_, ?_, ?_, ?_⟩
    · refine List.Chain'.append hc1 hc2 ?_
      intro a ha b hb
      rw [hlast1] at ha
      have ha2 : mid lo hi = a := by simpa using ha
      have hb2 : b ∈ ts2 := List.mem_of_mem_head? hb
      rw [← ha2]
      exact (hmem2 b hb2).1
    · intro t ht
      rcases List.mem_append.mp ht with h1 | h2
      · obtain ⟨hlo2, hhi2, hd2⟩ := hmem1 t h1
        exact ⟨hlo2, le_trans hhi2 hm2.le, hd2⟩
      · obtain ⟨hlo2, hhi2, hd2⟩ := hmem2 t h2
        exact ⟨lt_trans hm1 hlo2, hhi2, hd2⟩
    · rw [List.getLast?_append, hlast2]
      rfl
    · rw [_recursiveQuadraticVertex, if_neg h, List.map_append, heq1, heq2]

/-- C9: every point emitted by a `myQuadraticVertex` (`curveTo`) call lies
exactly on the true quadratic Bézier curve `B` through the initial cursor,
control point and endpoint: the output is `B` mapped over a strictly
increasing list of dyadic parameters in `(0, 1]` ending at `1` (exact
arithmetic). -/
theorem curveTo_points_on_curve (s : FlattenerState) (cx cy ex ey : ℚ) :
    ∃ ts : List ℚ,
      ts.Chain' (· < ·) ∧
      (∀ t ∈ ts, 0 < t ∧ t ≤ 1 ∧ IsDyadic t) ∧
      ts.getLast? = some 1 ∧
      (myQuadraticVertex s cx cy ex ey).2 =
        ts.map (fun t => (bezierX s.lastX cx ex t, bezierX s.lastY cy ey t)) := by
  have h := rec_param_invariant s.lastX s.lastY cx cy ex ey
    s.lastX s.lastY cx cy ex ey 0 0 1
    (by norm_num) ⟨0, 0, by norm_num⟩ ⟨1, 0, by norm_num⟩
    (by unfold bezierX; ring) (by unfold bezierX; ring)
    (by unfold blossom; ring) (by unfold blossom; ring)
    (by unfold bezierX; ring) (by unfold bezierX; ring)
  exact h

/-! ## Real-valued distance layer (the source computes Euclidean distances
with `p5.dist`, a square root; comparisons against the tolerance are
equivalent to squared comparisons, `getDistanceToLine_lt_iff_sq`) -/

/-- Real-valued squared Euclidean distance (square of `p5.dist`). -/
noncomputable def dist2SqR (px py qx qy : ℝ) : ℝ :=
  (px - qx) ^ 2 + (py - qy) ^ 2

/-- `getDistanceToLineSq` over the reals (same branch structure, squared
distances in each branch). -/
noncomputable def getDistanceToLineSqR (px py x1 y1 x2 y2 : ℝ) : ℝ :=
  let dx := x2 - x1
  let dy := y2 - y1
  let lenSq := dx * dx + dy * dy
  if lenSq = 0 then
    dist2SqR px py x1 y1
  else
    let t := ((px - x1) * dx + (py - y1) * dy) / lenSq
    if t < 0 then dist2SqR px py x1 y1
    else if 1 < t then dist2SqR px py x2 y2
    else dist2SqR px py (x1 + t * dx) (y1 + t * dy)

/-- `p5.dist`: the Euclidean distance between two points. -/
noncomputable def pDist (px py qx qy : ℝ) : ℝ :=
  Real.sqrt (dist2SqR px py qx qy)

/-- `getDistanceToLine` from `Slider.tsx`, translated branch by branch over
the reals (each branch returns a `p5.dist` Euclidean distance). -/
noncomputable def getDistanceToLine (px py x1 y1 x2 y2 : ℝ) : ℝ :=
  let dx := x2 - x1
  let dy := y2 - y1
  let lenSq := dx * dx + dy * dy
  if lenSq = 0 then
    pDist px py x1 y1
  else
    let t := ((px - x1) * dx + (py - y1) * dy) / lenSq
    if t < 0 then pDist px py x1 y1
    else if 1 < t then pDist px py x2 y2
    else pDist px py (x1 + t * dx) (y1 + t * dy)

/-- The projection parameter `t` computed inside `getDistanceToLine`: the
parameter along the segment of the orthogonal projection of `(px, py)` onto
the line through `(x1, y1)` and `(x2, y2)`. -/
noncomputable def projParam (px py x1 y1 x2 y2 : ℝ) : ℝ :=
  ((px - x1) * (x2 - x1) + (py - y1) * (y2 - y1)) /
    ((x2 - x1) * (x2 - x1) + (y2 - y1) * (y2 - y1))

/-- One coordinate of the true quadratic Bézier curve
`B(t) = (1-t)² P0 + 2t(1-t) P1 + t² P2`, over the reals. -/
noncomputable def bezierXR (p0 p1 p2 t : ℝ) : ℝ :=
  (1 - t) ^ 2 * p0 + 2 * t * (1 - t) * p1 + t ^ 2 * p2

/-- Squared distances are nonnegative. -/
theorem dist2SqR_nonneg (px py qx qy : ℝ) : 0 ≤ dist2SqR px py qx qy := by
  unfold dist2SqR
  positivity

/-- The `lenSq === 0` guard of `getDistanceToLine` holds exactly when the two
segment endpoints coincide. -/
theorem lenSq_eq_zero_iff (x1 y1 x2 y2 : ℝ) :
    (x2 - x1) * (x2 - x1) + (y2 - y1) * (y2 - y1) = 0 ↔ x2 = x1 ∧ y2 = y1 := by
  constructor
  · intro h
    have hx : (x2 - x1) * (x2 - x1) = 0 := by
      nlinarith [mul_self_nonneg (x2 - x1), mul_self_nonneg (y2 - y1)]
    have hy : (y2 - y1) * (y2 - y1) = 0 := by
      nlinarith [mul_self_nonneg (x2 - x1), mul_self_nonneg (y2 - y1)]
    constructor
    · have := mul_self_eq_zero.mp hx
      linarith
    · have := mul_self_eq_zero.mp hy
      linarith
  · rintro ⟨h1, h2⟩
    rw [h1, h2]
    ring

/-- The value computed by the distance helper is a lower bound on the squared
distance from the query point to every point of the segment: the helper
computes the distance to the segment. -/
theorem getDistanceToLineSqR_le_seg (px py x1 y1 x2 y2 s : ℝ)
    (hs0 : 0 ≤ s) (hs1 : s ≤ 1) :
    getDistanceToLineSqR px py x1 y1 x2 y2 ≤
      dist2SqR px py (x1 + s * (x2 - x1)) (y1 + s * (y2 - y1)) := by
  simp only [getDistanceToLineSqR]
  by_cases h0 : (x2 - x1) * (x2 - x1) + (y2 - y1) * (y2 - y1) = 0
  · rw [if_pos h0]
    obtain ⟨hx, hy⟩ := (lenSq_eq_zero_iff x1 y1 x2 y2).mp h0
    rw [hx, hy]
    simp [dist2SqR]
  · rw [if_neg h0]
    have hpos : 0 < (x2 - x1) * (x2 - x1) + (y2 - y1) * (y2 - y1) := by
      rcases lt_or_eq_of_le (add_nonneg (mul_self_nonneg (x2 - x1))
          (mul_self_nonneg (y2 - y1))) with h | h
      · exact h
      · exact absurd h.symm h0
    generalize hT : ((px - x1) * (x2 - x1) + (py - y1) * (y2 - y1)) /
        ((x2 - x1) * (x2 - x1) + (y2 - y1) * (y2 - y1)) = T
    have hproj : (px - x1) * (x2 - x1) + (py - y1) * (y2 - y1) =
        T * ((x2 - x1) * (x2 - x1) + (y2 - y1) * (y2 - y1)) := by
      rw [← hT, div_mul_cancel₀ _ h0]
    split_ifs with ht1 ht2
    · have key : dist2SqR px py (x1 + s * (x2 - x1)) (y1 + s * (y2 - y1)) -
          dist2SqR px py x1 y1 =
          ((x2 - x1) * (x2 - x1) + (y2 - y1) * (y2 - y1)) * (s * s) -
            2 * s * ((px - x1) * (x2 - x1) + (py - y1) * (y2 - y1)) := by
        simp only [dist2SqR]
        ring
      rw [hproj] at key
      nlinarith [key, mul_nonneg (mul_nonneg hs0 hpos.le)
        (by linarith : (0:ℝ) ≤ s - 2 * T)]
    · have key : dist2SqR px py (x1 + s * (x2 - x1)) (y1 + s * (y2 - y1)) -
          dist2SqR px py x2 y2 =
          ((x2 - x1) * (x2 - x1) + (y2 - y1) * (y2 - y1)) * ((s - 1) * (s + 1)) -
            2 * (s - 1) * ((px - x1) * (x2 - x1) + (py - y1) * (y2 - y1)) := by
        simp only [dist2SqR]
        ring
      rw [hproj] at key
      nlinarith [key, mul_nonneg (mul_nonneg (by linarith : (0:ℝ) ≤ 1 - s) hpos.le)
        (by linarith : (0:ℝ) ≤ 2 * T - (s + 1))]
    · have key : dist2SqR px py (x1 + s * (x2 - x1)) (y1 + s * (y2 - y1)) -
          dist2SqR px py (x1 + T * (x2 - x1)) (y1 + T * (y2 - y1)) =
          ((x2 - x1) * (x2 - x1) + (y2 - y1) * (y2 - y1)) * ((s - T) * (s - T)) -
            2 * (s - T) * (((px - x1) * (x2 - x1) + (py - y1) * (y2 - y1)) -
              T * ((x2 - x1) * (x2 - x1) + (y2 - y1) * (y2 - y1))) := by
        simp only [dist2SqR]
        ring
      rw [hproj, sub_self, mul_zero, sub_zero] at key
      nlinarith [key, mul_nonneg hpos.le (mul_self_nonneg (s - T))]

/-- The value computed by the distance helper is attained at some point of the
segment. -/
theorem getDistanceToLineSqR_attained (px py x1 y1 x2 y2 : ℝ) :
    ∃ s : ℝ, 0 ≤ s ∧ s ≤ 1 ∧
      getDistanceToLineSqR px py x1 y1 x2 y2 =
        dist2SqR px py (x1 + s * (x2 - x1)) (y1 + s * (y2 - y1)) := by
  simp only [getDistanceToLineSqR]
  by_cases h0 : (x2 - x1) * (x2 - x1) + (y2 - y1) * (y2 - y1) = 0
  · refine ⟨0, le_refl 0, zero_le_one, ?_⟩
    rw [if_pos h0, show x1 + 0 * (x2 - x1) = x1 by ring,
      show y1 + 0 * (y2 - y1) = y1 by ring]
  · rw [if_neg h0]
    split_ifs with ht1 ht2
    · refine ⟨0, le_refl 0, zero_le_one, ?_⟩
      rw [show x1 + 0 * (x2 - x1) = x1 by ring, show y1 + 0 * (y2 - y1) = y1 by ring]
    · refine ⟨1, zero_le_one, le_refl 1, ?_⟩
      rw [show x1 + 1 * (x2 - x1) = x2 by ring, show y1 + 1 * (y2 - y1) = y2 by ring]
    · exact ⟨((px - x1) * (x2 - x1) + (py - y1) * (y2 - y1)) /
        ((x2 - x1) * (x2 - x1) + (y2 - y1) * (y2 - y1)),
        not_lt.mp ht1, not_lt.mp ht2, rfl⟩

/-- The squared distance helper is nonnegative. -/
theorem getDistanceToLineSqR_nonneg (px py x1 y1 x2 y2 : ℝ) :
    0 ≤ getDistanceToLineSqR px py x1 y1 x2 y2 := by
  obtain ⟨s, _, _, hs⟩ := getDistanceToLineSqR_attained px py x1 y1 x2 y2
  rw [hs]
  exact dist2SqR_nonneg _ _ _ _

/-- The real and rational squared distance helpers agree on rational inputs
(every branch condition is preserved by the embedding `ℚ → ℝ`). -/
theorem getDistanceToLineSqR_cast (px py x1 y1 x2 y2 : ℚ) :
    getDistanceToLineSqR px py x1 y1 x2 y2 =
      ((getDistanceToLineSq px py x1 y1 x2 y2 : ℚ) : ℝ) := by
  simp only [getDistanceToLineSqR, getDistanceToLineSq, dist2SqR, dist2Sq]
  have hlen : ((x2:ℝ) - x1) * ((x2:ℝ) - x1) + ((y2:ℝ) - y1) * ((y2:ℝ) - y1) =
      (((x2 - x1) * (x2 - x1) + (y2 - y1) * (y2 - y1) : ℚ) : ℝ) := by
    push_cast
    ring
  have ht : (((px:ℝ) - x1) * ((x2:ℝ) - x1) + ((py:ℝ) - y1) * ((y2:ℝ) - y1)) /
      (((x2:ℝ) - x1) * ((x2:ℝ) - x1) + ((y2:ℝ) - y1) * ((y2:ℝ) - y1)) =
      ((((px - x1) * (x2 - x1) + (py - y1) * (y2 - y1)) /
        ((x2 - x1) * (x2 - x1) + (y2 - y1) * (y2 - y1)) : ℚ) : ℝ) := by
    push_cast
    ring
  by_cases h0 : (x2 - x1) * (x2 - x1) + (y2 - y1) * (y2 - y1) = (0:ℚ)
  · rw [if_pos h0, if_pos (by rw [hlen]; exact_mod_cast h0)]
    push_cast
    ring
  · rw [if_neg h0, if_neg (show ¬(((x2:ℝ) - x1) * ((x2:ℝ) - x1) +
        ((y2:ℝ) - y1) * ((y2:ℝ) - y1) = 0) by rw [hlen]; exact_mod_cast h0)]
    by_cases h1 : ((px - x1) * (x2 - x1) + (py - y1) * (y2 - y1)) /
        ((x2 - x1) * (x2 - x1) + (y2 - y1) * (y2 - y1)) < (0:ℚ)
    · rw [if_pos h1, if_pos (by rw [ht]; exact_mod_cast h1)]
      push_cast
      ring
    · rw [if_neg h1, if_neg (show ¬((((px:ℝ) - x1) * ((x2:ℝ) - x1) +
          ((py:ℝ) - y1) * ((y2:ℝ) - y1)) /
          (((x2:ℝ) - x1) * ((x2:ℝ) - x1) + ((y2:ℝ) - y1) * ((y2:ℝ) - y1)) < 0)
          by rw [ht]; exact_mod_cast h1)]
      by_cases h2 : (1:ℚ) < ((px - x1) * (x2 - x1) + (py - y1) * (y2 - y1)) /
          ((x2 - x1) * (x2 - x1) + (y2 - y1) * (y2 - y1))
      · rw [if_pos h2, if_pos (by rw [ht]; exact_mod_cast h2)]
        push_cast
        ring
      · rw [if_neg h2, if_neg (show ¬((1:ℝ) < (((px:ℝ) - x1) * ((x2:ℝ) - x1) +
            ((py:ℝ) - y1) * ((y2:ℝ) - y1)) /
            (((x2:ℝ) - x1) * ((x2:ℝ) - x1) + ((y2:ℝ) - y1) * ((y2:ℝ) - y1)))
            by rw [ht]; exact_mod_cast h2)]
        rw [ht]
        push_cast
        ring

/-- The source's distance helper equals the square root of the squared
helper. -/
theorem getDistanceToLine_eq_sqrt (px py x1 y1 x2 y2 : ℝ) :
    getDistanceToLine px py x1 y1 x2 y2 =
      Real.sqrt (getDistanceToLineSqR px py x1 y1 x2 y2) := by
  simp only [getDistanceToLine, getDistanceToLineSqR, pDist]
  split_ifs <;> rfl

/-- The source's comparison `getDistanceToLine(...) < c` (with the square
root) is equivalent to the squared comparison used in the embedding of the
recursion, justifying the stop-condition translation. -/
theorem getDistanceToLine_lt_iff_sq (px py x1 y1 x2 y2 c : ℚ) (hc : 0 < c) :
    getDistanceToLine px py x1 y1 x2 y2 < (c : ℝ) ↔
      getDistanceToLineSq px py x1 y1 x2 y2 < c ^ 2 := by
  rw [getDistanceToLine_eq_sqrt, Real.sqrt_lt' (by exact_mod_cast hc),
    getDistanceToLineSqR_cast]
  norm_cast

/-- C2: for every sub-segment `(P0, P1, P2)` at which the recursion stops
because the control-point distance test passes
(`getDistanceToLineSq P1 P0 P2 < flatnessTolerance²`, the embedded form of
`getDistanceToLine(...) < flatnessTolerance`), the deviation of every point
`B(t)`, `t ∈ [0, 1]`, of the true quadratic Bézier curve through
`(P0, P1, P2)` from the chord `P0–P2` (measured as the Euclidean distance
from `B(t)` to the segment, the same quantity the helper computes) is
strictly less than `flatnessTolerance`. -/
theorem flatness_bound (x0 y0 x1 y1 x2 y2 : ℚ)
    (hflat : getDistanceToLineSq x1 y1 x0 y0 x2 y2 < flatnessTolerance ^ 2)
    (t : ℝ) (ht0 : 0 ≤ t) (ht1 : t ≤ 1) :
    getDistanceToLine (bezierXR x0 x1 x2 t) (bezierXR y0 y1 y2 t)
      (x0 : ℝ) (y0 : ℝ) (x2 : ℝ) (y2 : ℝ) < (flatnessTolerance : ℝ) := by
  have htol : (0:ℚ) < flatnessTolerance := by norm_num [flatnessTolerance]
  rw [getDistanceToLine_eq_sqrt, Real.sqrt_lt' (by exact_mod_cast htol)]
  obtain ⟨s0, hs00, hs01, hatt⟩ :=
    getDistanceToLineSqR_attained (x1:ℝ) (y1:ℝ) (x0:ℝ) (y0:ℝ) (x2:ℝ) (y2:ℝ)
  have hD : getDistanceToLineSqR (x1:ℝ) (y1:ℝ) (x0:ℝ) (y0:ℝ) (x2:ℝ) (y2:ℝ) <
      (flatnessTolerance:ℝ) ^ 2 := by
    rw [getDistanceToLineSqR_cast]
    exact_mod_cast hflat
  rw [hatt] at hD
  have ha : (0:ℝ) ≤ 2 * t * (1 - t) :=
    mul_nonneg (mul_nonneg (by norm_num) ht0) (by linarith)
  have hu0 : (0:ℝ) ≤ t ^ 2 + 2 * t * (1 - t) * s0 := by
    nlinarith [mul_nonneg ha hs00, sq_nonneg t]
  have hu1 : t ^ 2 + 2 * t * (1 - t) * s0 ≤ 1 := by
    nlinarith [mul_le_mul_of_nonneg_left hs01 ha, sq_nonneg (1 - t)]
  have hle := getDistanceToLineSqR_le_seg (bezierXR x0 x1 x2 t) (bezierXR y0 y1 y2 t)
      (x0:ℝ) (y0:ℝ) (x2:ℝ) (y2:ℝ) (t ^ 2 + 2 * t * (1 - t) * s0) hu0 hu1
  have hkey : dist2SqR (bezierXR x0 x1 x2 t) (bezierXR y0 y1 y2 t)
      ((x0:ℝ) + (t ^ 2 + 2 * t * (1 - t) * s0) * ((x2:ℝ) - x0))
      ((y0:ℝ) + (t ^ 2 + 2 * t * (1 - t) * s0) * ((y2:ℝ) - y0)) =
      (2 * t * (1 - t)) ^ 2 *
        dist2SqR (x1:ℝ) (y1:ℝ) ((x0:ℝ) + s0 * ((x2:ℝ) - x0))
          ((y0:ℝ) + s0 * ((y2:ℝ) - y0)) := by
    simp only [dist2SqR, bezierXR]
    ring
  rw [hkey] at hle
  have hfac : (2 * t * (1 - t)) ^ 2 ≤ 1 := by
    nlinarith [sq_nonneg (2 * t - 1), ha]
  have hnn := dist2SqR_nonneg (x1:ℝ) (y1:ℝ) ((x0:ℝ) + s0 * ((x2:ℝ) - x0))
    ((y0:ℝ) + s0 * ((y2:ℝ) - y0))
  nlinarith [hle, hD, hnn, hfac, mul_le_mul_of_nonneg_right hfac hnn]

/-- Witness for C2 at the degenerate-flat segment `(0,0), (0,0), (1,0)` and
parameter `t = 1/2`. -/
theorem flatness_bound_witness :
    getDistanceToLineSq 0 0 0 0 1 0 < flatnessTolerance ^ 2 ∧
      getDistanceToLine (bezierXR ((0:ℚ):ℝ) ((0:ℚ):ℝ) ((1:ℚ):ℝ) (1/2))
        (bezierXR ((0:ℚ):ℝ) ((0:ℚ):ℝ) ((0:ℚ):ℝ) (1/2))
        ((0:ℚ):ℝ) ((0:ℚ):ℝ) ((1:ℚ):ℝ) ((0:ℚ):ℝ) < (flatnessTolerance : ℝ) := by
  have h : getDistanceToLineSq 0 0 0 0 1 0 < flatnessTolerance ^ 2 := by
    norm_num [getDistanceToLineSq, dist2Sq, flatnessTolerance]
  exact ⟨h, flatness_bound 0 0 0 0 1 0 h (1/2) (by norm_num) (by norm_num)⟩

/-- C5: `getDistanceToLine` returns the direct Euclidean distance to
`(x1, y1)` when the segment endpoints coincide; the distance to the nearer
endpoint when the projection parameter falls outside `[0, 1]` (with the
returned endpoint provably the nearer one); and the perpendicular distance to
the line otherwise (the distance to the orthogonal projection, characterised
by `d² · lenSq = cross²`). -/
theorem getDistanceToLine_branch_spec (px py x1 y1 x2 y2 : ℝ) :
    ((x2 = x1 ∧ y2 = y1) →
      getDistanceToLine px py x1 y1 x2 y2 = pDist px py x1 y1) ∧
    (¬(x2 = x1 ∧ y2 = y1) → projParam px py x1 y1 x2 y2 < 0 →
      getDistanceToLine px py x1 y1 x2 y2 = pDist px py x1 y1 ∧
        pDist px py x1 y1 ≤ pDist px py x2 y2) ∧
    (¬(x2 = x1 ∧ y2 = y1) → 1 < projParam px py x1 y1 x2 y2 →
      getDistanceToLine px py x1 y1 x2 y2 = pDist px py x2 y2 ∧
        pDist px py x2 y2 ≤ pDist px py x1 y1) ∧
    (¬(x2 = x1 ∧ y2 = y1) → 0 ≤ projParam px py x1 y1 x2 y2 →
      projParam px py x1 y1 x2 y2 ≤ 1 →
      getDistanceToLine px py x1 y1 x2 y2 =
        pDist px py (x1 + projParam px py x1 y1 x2 y2 * (x2 - x1))
          (y1 + projParam px py x1 y1 x2 y2 * (y2 - y1)) ∧
      getDistanceToLine px py x1 y1 x2 y2 ^ 2 *
          ((x2 - x1) * (x2 - x1) + (y2 - y1) * (y2 - y1)) =
        ((x2 - x1) * (py - y1) - (y2 - y1) * (px - x1)) ^ 2) := by
  refine ⟨?_, ?_, ?_, ?_⟩
  · rintro ⟨hx, hy⟩
    simp only [getDistanceToLine]
    rw [if_pos ((lenSq_eq_zero_iff x1 y1 x2 y2).mpr ⟨hx, hy⟩)]
  · intro hne hT
    have h0 : ¬((x2 - x1) * (x2 - x1) + (y2 - y1) * (y2 - y1) = 0) :=
      fun h => hne ((lenSq_eq_zero_iff x1 y1 x2 y2).mp h)
    have hpos : 0 < (x2 - x1) * (x2 - x1) + (y2 - y1) * (y2 - y1) :=
      lt_of_le_of_ne (add_nonneg (mul_self_nonneg (x2 - x1))
        (mul_self_nonneg (y2 - y1))) (Ne.symm h0)
    simp only [projParam] at hT
    simp only [getDistanceToLine]
    rw [if_neg h0, if_pos hT]
    refine ⟨rfl, ?_⟩
    have hN : (px - x1) * (x2 - x1) + (py - y1) * (y2 - y1) < 0 := by
      have := (div_lt_iff₀ hpos).mp hT
      linarith
    unfold pDist
    apply Real.sqrt_le_sqrt
    simp only [dist2SqR]
    nlinarith [hN, hpos]
  · intro hne hT
    have h0 : ¬((x2 - x1) * (x2 - x1) + (y2 - y1) * (y2 - y1) = 0) :=
      fun h => hne ((lenSq_eq_zero_iff x1 y1 x2 y2).mp h)
    have hpos : 0 < (x2 - x1) * (x2 - x1) + (y2 - y1) * (y2 - y1) :=
      lt_of_le_of_ne (add_nonneg (mul_self_nonneg (x2 - x1))
        (mul_self_nonneg (y2 - y1))) (Ne.symm h0)
    simp only [projParam] at hT
    have hT0 : ¬(((px - x1) * (x2 - x1) + (py - y1) * (y2 - y1)) /
        ((x2 - x1) * (x2 - x1) + (y2 - y1) * (y2 - y1)) < 0) := by
      intro hc
      linarith
    simp only [getDistanceToLine]
    rw [if_neg h0, if_neg hT0, if_pos hT]
    refine ⟨rfl, ?_⟩
    have hN : (x2 - x1) * (x2 - x1) + (y2 - y1) * (y2 - y1) <
        (px - x1) * (x2 - x1) + (py - y1) * (y2 - y1) := by
      have := (lt_div_iff₀ hpos).mp hT
      linarith
    unfold pDist
    apply Real.sqrt_le_sqrt
    simp only [dist2SqR]
    nlinarith [hN, hpos]
  · intro hne h0T hT1
    have h0 : ¬((x2 - x1) * (x2 - x1) + (y2 - y1) * (y2 - y1) = 0) :=
      fun h => hne ((lenSq_eq_zero_iff x1 y1 x2 y2).mp h)
    simp only [projParam] at h0T hT1
    simp only [getDistanceToLine, projParam]
    rw [if_neg h0, if_neg (not_lt.mpr h0T), if_neg (not_lt.mpr hT1)]
    refine ⟨rfl, ?_⟩
    unfold pDist
    rw [Real.sq_sqrt (dist2SqR_nonneg _ _ _ _)]
    simp only [dist2SqR]
    field_simp
    ring

/-- Witness for C5: one concrete instance per branch — coincident endpoints,
projection parameter below `0`, above `1`, and inside `[0, 1]`. -/
theorem getDistanceToLine_branch_spec_witness :
    getDistanceToLine 3 4 1 2 1 2 = pDist 3 4 1 2 ∧
    (getDistanceToLine (-1) 0 0 0 2 0 = pDist (-1) 0 0 0 ∧
      pDist (-1) 0 0 0 ≤ pDist (-1) 0 2 0) ∧
    (getDistanceToLine 3 0 0 0 2 0 = pDist 3 0 2 0 ∧
      pDist 3 0 2 0 ≤ pDist 3 0 0 0) ∧
    (getDistanceToLine 1 1 0 0 2 0 =
        pDist 1 1 (0 + projParam 1 1 0 0 2 0 * (2 - 0))
          (0 + projParam 1 1 0 0 2 0 * (0 - 0)) ∧
      getDistanceToLine 1 1 0 0 2 0 ^ 2 * ((2 - 0) * (2 - 0) + (0 - 0) * (0 - 0)) =
        ((2 - 0) * (1 - 0) - (0 - 0) * (1 - 0)) ^ 2) :=
  ⟨(getDistanceToLine_branch_spec 3 4 1 2 1 2).1 ⟨rfl, rfl⟩,
    (getDistanceToLine_branch_spec (-1) 0 0 0 2 0).2.1 (by norm_num)
      (by norm_num [projParam]),
    (getDistanceToLine_branch_spec 3 0 0 0 2 0).2.2.1 (by norm_num)
      (by norm_num [projParam]),
    (getDistanceToLine_branch_spec 1 1 0 0 2 0).2.2.2 (by norm_num)
      (by norm_num [projParam]) (by norm_num [projParam])⟩

end VisualScience
